import Mathlib

/-!
Shallow embedding of the window-registry core of `src/src-tauri/src/main.rs`.

Modelling conventions:
* Rust `u32` / `u64` counters and timestamps are modelled as `Nat` (the
  source never subtracts and the spec treats id-space exhaustion as
  unreachable, so wrap-around is out of scope).
* Rust `f64` geometry fields are modelled as exact rationals; the modelled
  operations only store and copy these fields, except for the snap
  geometry, whose arithmetic on the concrete 1920 by 1080 inputs produces
  values that are exactly representable in `f64` (halves, and 70 percent
  insets that round to the integers 1344 and 756), so the rational model
  agrees with the machine computation there.
* The `HashMap<String, WindowState>` is modelled as an association list in
  insertion order.  `HashMap` iteration order is unspecified in Rust; the
  list order stands in for one admissible iteration order, which is what
  `remove_window`'s `max_by_key` tie-breaking observes.
* Fallible window creation during layout restoration is modelled by an
  explicit `Except`-valued creation function passed as a parameter.
-/

/-- Mirror of `WindowConfig` (main.rs lines 10-28). -/
structure WindowConfig where
  window_type : String
  title : String
  width : ℚ
  height : ℚ
  x : Option ℚ
  y : Option ℚ
  resizable : Bool
  minimizable : Bool
  maximizable : Bool
  closable : Bool
  always_on_top : Bool
  decorations : Bool
  transparent : Bool
  focus : Bool
  fullscreen : Bool
  url : Option String
deriving DecidableEq

/-- Mirror of `WindowState` (main.rs lines 30-41). -/
structure WindowState where
  label : String
  config : WindowConfig
  z_order : Nat
  is_focused : Bool
  is_minimized : Bool
  is_maximized : Bool
  monitor_id : Option String
  created_at : Nat
  last_focused_at : Nat
deriving DecidableEq

/-- Mirror of `WindowRegistry` (main.rs lines 56-60); the `HashMap` is an
association list in insertion order. -/
structure WindowRegistry where
  windows : List (String × WindowState)
  z_order_counter : Nat
  focused_window : Option String
deriving DecidableEq

/-- Lookup in the window map, mirroring `HashMap::get` (keys are unique in
every reachable registry). -/
def lookupW : List (String × WindowState) → String → Option WindowState
  | [], _ => none
  | p :: rest, k => if p.1 == k then some p.2 else lookupW rest k

/-- Key-membership test, mirroring `HashMap::contains_key`. -/
def containsW : List (String × WindowState) → String → Bool
  | [], _ => false
  | p :: rest, k => (p.1 == k) || containsW rest k

/-- Apply `f` to the record stored under `k` (no-op when `k` is absent),
mirroring mutation through `HashMap::get_mut`. -/
def setW (m : List (String × WindowState)) (k : String) (f : WindowState → WindowState) :
    List (String × WindowState) :=
  m.map fun p => if p.1 == k then (p.1, f p.2) else p

/-- Mirror of `HashMap::insert`: replaces the record of an existing key in
place, otherwise appends a fresh entry. -/
def insertW (m : List (String × WindowState)) (k : String) (v : WindowState) :
    List (String × WindowState) :=
  if containsW m k then setW m k (fun _ => v) else m ++ [(k, v)]

/-- Keys of the window map. -/
def keysW (m : List (String × WindowState)) : List String := m.map Prod.fst

/-- The `z_order` values of the window map entries. -/
def zvals (m : List (String × WindowState)) : List Nat := m.map fun p => p.2.z_order

/-- Mirror of `WindowRegistry::new` (main.rs lines 63-69). -/
def WindowRegistry.new : WindowRegistry :=
  { windows := [], z_order_counter := 0, focused_window := none }

/-- The unfocus-the-previous-holder step shared by `add_window` (main.rs
lines 92-96) and `focus_window` (main.rs lines 122-126). -/
def unfocusPrev (r : WindowRegistry) : List (String × WindowState) :=
  match r.focused_window with
  | some prev => setW r.windows prev fun w => { w with is_focused := false }
  | none => r.windows

/-- Mirror of `WindowRegistry::add_window` (main.rs lines 71-100): the
timestamp obtained from the system clock is passed in as `now`. -/
def WindowRegistry.add_window (r : WindowRegistry) (label : String) (config : WindowConfig)
    (now : Nat) : WindowRegistry :=
  let ws : WindowState :=
    { label := label, config := config, z_order := r.z_order_counter + 1,
      is_focused := true, is_minimized := false, is_maximized := false,
      monitor_id := none, created_at := now, last_focused_at := now }
  { windows := insertW (unfocusPrev r) label ws,
    z_order_counter := r.z_order_counter + 1,
    focused_window := some label }

/-- One step of `Iterator::max_by_key(|(_, state)| state.last_focused_at)`:
on equal keys Rust keeps the later element, hence the `≤`. -/
def maxStep (acc : Option (String × WindowState)) (p : String × WindowState) :
    Option (String × WindowState) :=
  match acc with
  | none => some p
  | some q => if q.2.last_focused_at ≤ p.2.last_focused_at then some p else some q

/-- Mirror of `max_by_key` over the map entries (main.rs lines 107-108);
iteration order is the list order (see the header note on `HashMap`). -/
def maxByLfa (m : List (String × WindowState)) : Option (String × WindowState) :=
  m.foldl maxStep none

/-- Mirror of `WindowRegistry::remove_window` (main.rs lines 102-113). -/
def WindowRegistry.remove_window (r : WindowRegistry) (label : String) : WindowRegistry :=
  let rest := r.windows.filter fun p => !(p.1 == label)
  if r.focused_window = some label then
    match maxByLfa rest with
    | some q =>
        { windows := setW rest q.1 (fun w => { w with is_focused := true }),
          z_order_counter := r.z_order_counter,
          focused_window := some q.2.label }
    | none =>
        { windows := rest, z_order_counter := r.z_order_counter, focused_window := none }
  else
    { windows := rest, z_order_counter := r.z_order_counter,
      focused_window := r.focused_window }

/-- Mirror of `WindowRegistry::focus_window` (main.rs lines 115-136): the
previous holder is unfocused before the target label is looked up, and the
counter is bumped only when the label exists. -/
def WindowRegistry.focus_window (r : WindowRegistry) (label : String) (now : Nat) :
    WindowRegistry :=
  if containsW (unfocusPrev r) label then
    { windows := setW (unfocusPrev r) label fun w =>
        { w with is_focused := true, last_focused_at := now,
                 z_order := r.z_order_counter + 1 },
      z_order_counter := r.z_order_counter + 1,
      focused_window := some label }
  else
    { windows := unfocusPrev r, z_order_counter := r.z_order_counter,
      focused_window := r.focused_window }

/-- The per-record mutation of `update_window_state` (main.rs lines
157-167): each provided optional field overrides the stored one, absent
fields are left untouched. -/
def updateF (is_minimized is_maximized : Option Bool) (monitor_id : Option String)
    (w : WindowState) : WindowState :=
  let w1 := match is_minimized with
    | some b => { w with is_minimized := b }
    | none => w
  let w2 := match is_maximized with
    | some b => { w1 with is_maximized := b }
    | none => w1
  match monitor_id with
  | some m => { w2 with monitor_id := some m }
  | none => w2

/-- Mirror of `WindowRegistry::update_window_state` (main.rs lines 156-168). -/
def WindowRegistry.update_window_state (r : WindowRegistry) (label : String)
    (is_minimized is_maximized : Option Bool) (monitor_id : Option String) : WindowRegistry :=
  { r with
    windows := setW r.windows label (updateF is_minimized is_maximized monitor_id) }

/-- A registry mutation, as issued through the command layer. -/
inductive RegOp where
  | add : String → WindowConfig → Nat → RegOp
  | remove : String → RegOp
  | focus : String → Nat → RegOp
  | update : String → Option Bool → Option Bool → Option String → RegOp

/-- Apply one mutation to the registry. -/
def applyOp (r : WindowRegistry) : RegOp → WindowRegistry
  | .add l c t => r.add_window l c t
  | .remove l => r.remove_window l
  | .focus l t => r.focus_window l t
  | .update l mi ma mo => r.update_window_state l mi ma mo

/-- Apply a sequence of mutations, left to right. -/
def applyOps (r : WindowRegistry) : List RegOp → WindowRegistry
  | [] => r
  | op :: rest => applyOps (applyOp r op) rest

/-- The label targeted by an `add_window` or `focus_window` call, if the
operation is one of those. -/
def opTarget (acc : Option String) : RegOp → Option String
  | .add l _ _ => some l
  | .focus l _ => some l
  | _ => acc

/-- The label most recently passed to `add_window` or `focus_window` in a
sequence of mutations (accumulator-passing form). -/
def lastRaised : List RegOp → Option String → Option String
  | [], acc => acc
  | op :: rest, acc => lastRaised rest (opTarget acc op)

/-- Number of focused records in the map. -/
def countFocused (m : List (String × WindowState)) : Nat :=
  m.countP fun p => p.2.is_focused

/-- First index of `c` in the label list, mirroring
`windows.iter().position(|w| w == &current)` (main.rs line 604). -/
def posOf (c : String) : List String → Option Nat
  | [] => none
  | x :: xs => if x == c then some 0 else (posOf c xs).map (· + 1)

/-- The cycle-target selection of `cycle_windows` (main.rs lines 599-619):
given the direction, the currently focused label (if any) and the z-order
sorted label sequence, pick the label to focus next, or `none` when the
sequence is empty. -/
def cycleTarget (forward : Bool) (current : Option String) (windows : List String) :
    Option String :=
  if windows.isEmpty then none
  else
    match current with
    | some c =>
      match posOf c windows with
      | some i =>
        if forward then windows[(i + 1) % windows.length]?
        else if i = 0 then windows.getLast? else windows[i - 1]?
      | none => windows.head?
    | none => windows.head?

/-- The restoration loop of `load_window_state` (main.rs lines 784-816):
each snapshot is handed to the fallible window-creation call; on success
the fresh label is collected, on failure the snapshot is skipped and the
loop continues with the next one.  The creation call (which also performs
registration and geometry restoration, external to this loop) is passed in
as `create`. -/
def restoreLoop (create : WindowState → Except String String) :
    List WindowState → List String
  | [] => []
  | s :: rest =>
    match create s with
    | .ok label => label :: restoreLoop create rest
    | .error _ => restoreLoop create rest

/-- Mirror of `SnapPosition` (main.rs lines 629-641). -/
inductive SnapPosition where
  | Left | Right | Top | Bottom
  | TopLeft | TopRight | BottomLeft | BottomRight
  | Center | Maximize
deriving DecidableEq

/-- A target rectangle: position as set through `PhysicalPosition` (`i32`
fields) and size as set through `PhysicalSize` (`u32` fields). -/
structure SnapRect where
  x : Int
  y : Int
  width : Nat
  height : Nat
deriving DecidableEq

/-- Truncation toward zero of an exact rational, the rounding used by a
Rust `as` cast from `f64` to an integer type. -/
def truncRat (q : ℚ) : Int :=
  if q < 0 then ⌈q⌉ else ⌊q⌋

/-- Saturating Rust `f64 as u32` cast on the exact-rational model. -/
def f64ToU32 (q : ℚ) : Nat :=
  (min (max (truncRat q) 0) (2 ^ 32 - 1)).toNat

/-- Saturating Rust `f64 as i32` cast on the exact-rational model. -/
def f64ToI32 (q : ℚ) : Int :=
  min (max (truncRat q) (-(2 ^ 31))) (2 ^ 31 - 1)

/-- The target-rectangle computation of `snap_window` (main.rs lines
649-744), with the monitor dimensions (hardcoded to 1920.0 by 1080.0 in
the source) taken as parameters.  `Maximize` delegates to the platform
maximize call and produces no rectangle.  The `f64` arithmetic of the
source is modelled by exact rationals (see the header note); `0.7` is the
source's center fraction. -/
def snap_rect (monitor_width monitor_height : ℚ) (position : SnapPosition) :
    Option SnapRect :=
  let half_width := monitor_width / 2
  let half_height := monitor_height / 2
  match position with
  | .Left => some ⟨0, 0, f64ToU32 half_width, f64ToU32 monitor_height⟩
  | .Right => some ⟨f64ToI32 half_width, 0, f64ToU32 half_width, f64ToU32 monitor_height⟩
  | .Top => some ⟨0, 0, f64ToU32 monitor_width, f64ToU32 half_height⟩
  | .Bottom => some ⟨0, f64ToI32 half_height, f64ToU32 monitor_width, f64ToU32 half_height⟩
  | .TopLeft => some ⟨0, 0, f64ToU32 half_width, f64ToU32 half_height⟩
  | .TopRight => some ⟨f64ToI32 half_width, 0, f64ToU32 half_width, f64ToU32 half_height⟩
  | .BottomLeft =>
      some ⟨0, f64ToI32 half_height, f64ToU32 half_width, f64ToU32 half_height⟩
  | .BottomRight =>
      some ⟨f64ToI32 half_width, f64ToI32 half_height, f64ToU32 half_width,
            f64ToU32 half_height⟩
  | .Center =>
      let center_width := monitor_width * (7 / 10)
      let center_height := monitor_height * (7 / 10)
      some ⟨f64ToI32 ((monitor_width - center_width) / 2),
            f64ToI32 ((monitor_height - center_height) / 2),
            f64ToU32 center_width, f64ToU32 center_height⟩
  | .Maximize => none

/-- A concrete window configuration used by the concrete test registries. -/
def cfg0 : WindowConfig :=
  { window_type := "main", title := "Main", width := 800, height := 600,
    x := none, y := none, resizable := true, minimizable := true,
    maximizable := true, closable := true, always_on_top := false,
    decorations := true, transparent := false, focus := true,
    fullscreen := false, url := none }

/-- Registry obtained by adding window "a" and then focusing the absent
label "b" (claim C1 failing input). -/
def regC1 : WindowRegistry := (WindowRegistry.new.add_window "a" cfg0 0).focus_window "b" 1

/-- One-window registry with "a" focused (claim C2 failing input). -/
def regC2 : WindowRegistry := WindowRegistry.new.add_window "a" cfg0 0

/-- `regC2` after focusing the absent label "b". -/
def regC2x : WindowRegistry := regC2.focus_window "b" 5

/-- One-window registry (claim C3 counterexample base). -/
def regC3a : WindowRegistry := WindowRegistry.new.add_window "a" cfg0 0

/-- `regC3a` after focusing "a" once. -/
def regC3b : WindowRegistry := regC3a.focus_window "a" 1

/-- `regC3a` after focusing "a" twice with the same timestamp. -/
def regC3c : WindowRegistry := regC3b.focus_window "a" 1

/-- Registry with records a (z 3, lastFocusedAt 5), b (z 2, lastFocusedAt 5)
and focused c (claim C4 counterexample base). -/
def regC4x : WindowRegistry :=
  (((WindowRegistry.new.add_window "a" cfg0 5).add_window "b" cfg0 5).focus_window
    "a" 5).add_window "c" cfg0 9

/-- Registry with A focused (lastFocusedAt 5) and B (lastFocusedAt 10), the
concrete scenario of claim C4. -/
def regC4w : WindowRegistry :=
  ((WindowRegistry.new.add_window "A" cfg0 5).add_window "B" cfg0 10).focus_window "A" 5

/-- A saved-layout snapshot whose config carries the given title. -/
def snapW (ttl : String) : WindowState :=
  { label := "saved_" ++ ttl, config := { cfg0 with title := ttl }, z_order := 1,
    is_focused := false, is_minimized := false, is_maximized := false,
    monitor_id := none, created_at := 0, last_focused_at := 0 }

/-- A creation function that fails exactly on snapshots titled "bad" and
otherwise returns a fresh label derived from the title. -/
def createByTitle (s : WindowState) : Except String String :=
  if s.config.title == "bad" then Except.error "window creation failed"
  else Except.ok ("w_" ++ s.config.title)

/-- Concrete mutation sequence used to witness claim C5. -/
def opsC5 : List RegOp := [RegOp.add "a" cfg0 0, RegOp.add "b" cfg0 1, RegOp.focus "a" 2]

theorem setW_fst (k : String) (f : WindowState → WindowState) (p : String × WindowState) :
    (if p.1 == k then (p.1, f p.2) else p).1 = p.1 := by
  by_cases h : p.1 == k <;> simp [h]

theorem length_setW (m : List (String × WindowState)) (k : String)
    (f : WindowState → WindowState) : (setW m k f).length = m.length := by
  simp [setW]

theorem keysW_setW (m : List (String × WindowState)) (k : String)
    (f : WindowState → WindowState) : keysW (setW m k f) = keysW m := by
  induction m with
  | nil => rfl
  | cons p m ih =>
    by_cases h : p.1 = k <;>
      simp [setW, keysW, beq_iff_eq, h] <;>
      simpa [setW, keysW] using ih

theorem zvals_setW (m : List (String × WindowState)) (k : String)
    (f : WindowState → WindowState) (hf : ∀ w, (f w).z_order = w.z_order) :
    zvals (setW m k f) = zvals m := by
  induction m with
  | nil => rfl
  | cons p m ih =>
    by_cases h : p.1 = k <;>
      simp [setW, zvals, beq_iff_eq, h, hf] <;>
      simpa [setW, zvals] using ih

theorem zvals_setW_mem (m : List (String × WindowState)) (k : String)
    (f : WindowState → WindowState) (zc : Nat) (hz : ∀ w, (f w).z_order = zc) :
    ∀ z ∈ zvals (setW m k f), z ∈ zvals m ∨ z = zc := by
  induction m with
  | nil => simp [setW, zvals]
  | cons p m ih =>
    intro z hmem
    by_cases h : p.1 = k
    · simp [setW, zvals, beq_iff_eq, h, hz] at hmem
      rcases hmem with h1 | h2
      · right; exact h1
      · rcases ih z (by simpa [setW, zvals] using h2) with h3 | h4
        · left; simp [zvals]; right; simpa [zvals] using h3
        · right; exact h4
    · simp [setW, zvals, beq_iff_eq, h] at hmem
      rcases hmem with h1 | h2
      · left; simp [zvals, h1]
      · rcases ih z (by simpa [setW, zvals] using h2) with h3 | h4
        · left; simp [zvals]; right; simpa [zvals] using h3
        · right; exact h4

theorem contains_setW (m : List (String × WindowState)) (k k2 : String)
    (f : WindowState → WindowState) : containsW (setW m k f) k2 = containsW m k2 := by
  induction m with
  | nil => rfl
  | cons p m ih =>
    simp only [setW, List.map_cons, containsW, setW_fst]
    simp only [setW] at ih
    rw [ih]

theorem lookup_isSome (m : List (String × WindowState)) (k : String) :
    (lookupW m k).isSome = containsW m k := by
  induction m with
  | nil => rfl
  | cons p m ih =>
    by_cases h : p.1 = k <;> simp [lookupW, containsW, beq_iff_eq, h, ih]

theorem setW_not_contains (m : List (String × WindowState)) (k : String)
    (f : WindowState → WindowState) (h : containsW m k = false) : setW m k f = m := by
  induction m with
  | nil => rfl
  | cons p m ih =>
    simp [containsW, beq_iff_eq] at h
    simp [setW, beq_iff_eq, h.1]
    simpa [setW] using ih h.2

theorem contains_iff_mem_keys (m : List (String × WindowState)) (k : String) :
    containsW m k = true ↔ k ∈ keysW m := by
  induction m with
  | nil => simp [containsW, keysW]
  | cons p m ih =>
    simp only [containsW, Bool.or_eq_true, beq_iff_eq, keysW, List.map_cons, List.mem_cons]
    simp only [keysW] at ih
    rw [ih]
    exact or_congr eq_comm Iff.rfl

theorem lookup_setW_self (m : List (String × WindowState)) (k : String)
    (f : WindowState → WindowState) :
    lookupW (setW m k f) k = (lookupW m k).map f := by
  induction m with
  | nil => rfl
  | cons p m ih =>
    simp only [setW, List.map_cons, lookupW, setW_fst]
    simp only [setW] at ih
    by_cases h : p.1 = k
    · have hb : (p.1 == k) = true := beq_iff_eq.mpr h
      simp [hb]
    · have hb : (p.1 == k) = false := beq_eq_false_iff_ne.mpr h
      simp [hb]
      simpa using ih

theorem lookup_setW_ne (m : List (String × WindowState)) (k k2 : String)
    (f : WindowState → WindowState) (h : k2 ≠ k) :
    lookupW (setW m k f) k2 = lookupW m k2 := by
  induction m with
  | nil => rfl
  | cons p m ih =>
    simp only [setW, List.map_cons, lookupW, setW_fst]
    simp only [setW] at ih
    by_cases h3 : p.1 = k2
    · have hbk : (p.1 == k) = false :=
        beq_eq_false_iff_ne.mpr (by rw [h3]; exact h)
      have hb2 : (p.1 == k2) = true := beq_iff_eq.mpr h3
      simp [hbk, hb2]
    · have hb2 : (p.1 == k2) = false := beq_eq_false_iff_ne.mpr h3
      simp [hb2]
      simpa using ih

theorem lookup_of_mem_nodup (m : List (String × WindowState)) :
    ∀ p : String × WindowState,
      (keysW m).Nodup → p ∈ m → lookupW m p.1 = some p.2 := by
  induction m with
  | nil => intro p h hp; simp at hp
  | cons a m ih =>
    intro p h hp
    simp only [keysW, List.map_cons, List.nodup_cons] at h
    rcases List.mem_cons.mp hp with h1 | h2
    · subst h1
      simp [lookupW]
    · have hfst : p.1 ∈ List.map Prod.fst m := List.mem_map_of_mem Prod.fst h2
      have hne : a.1 ≠ p.1 := fun he => h.1 (by rw [he]; exact hfst)
      simp [lookupW, beq_eq_false_iff_ne.mpr hne]
      exact ih p (by simpa [keysW] using h.2) h2

theorem lookup_filter_self (m : List (String × WindowState)) (l : String) :
    lookupW (m.filter fun p => !(p.1 == l)) l = none := by
  induction m with
  | nil => rfl
  | cons p m ih =>
    by_cases h : p.1 = l <;> simp [List.filter_cons, lookupW, beq_iff_eq, h, ih]

theorem lookup_filter_ne (m : List (String × WindowState)) (l k : String) (h : k ≠ l) :
    lookupW (m.filter fun p => !(p.1 == l)) k = lookupW m k := by
  induction m with
  | nil => rfl
  | cons p m ih =>
    simp only [List.filter_cons]
    by_cases hpl : p.1 = l
    · have hb : (!(p.1 == l)) = false := by simp [beq_iff_eq, hpl]
      have hbk : (p.1 == k) = false :=
        beq_eq_false_iff_ne.mpr (by rw [hpl]; exact fun hh => h hh.symm)
      simp [hb, hbk, lookupW, ih]
    · have hb : (!(p.1 == l)) = true := by simp [beq_iff_eq, hpl]
      simp [hb, lookupW, ih]

theorem lookup_append_self (m : List (String × WindowState)) (k : String) (v : WindowState)
    (h : containsW m k = false) : lookupW (m ++ [(k, v)]) k = some v := by
  induction m with
  | nil => simp [lookupW]
  | cons p m ih =>
    simp [containsW, beq_iff_eq] at h
    simp [lookupW, beq_iff_eq, h.1]
    exact ih h.2

theorem maxStep_eq_some (acc : Option (String × WindowState)) (p : String × WindowState) :
    ∃ x, maxStep acc p = some x := by
  cases acc with
  | none => exact ⟨p, rfl⟩
  | some q =>
    by_cases h : q.2.last_focused_at ≤ p.2.last_focused_at <;> simp [maxStep, h]

theorem maxStep_ge (acc : Option (String × WindowState)) (p x : String × WindowState)
    (h : maxStep acc p = some x) :
    p.2.last_focused_at ≤ x.2.last_focused_at ∧
      ∀ a, acc = some a → a.2.last_focused_at ≤ x.2.last_focused_at := by
  cases acc with
  | none =>
    simp only [maxStep, Option.some.injEq] at h
    subst h
    exact ⟨le_refl _, by simp⟩
  | some q =>
    by_cases hle : q.2.last_focused_at ≤ p.2.last_focused_at
    · simp only [maxStep, hle, if_true, Option.some.injEq] at h
      subst h
      refine ⟨le_refl _, ?_⟩
      intro a ha
      rw [Option.some.injEq] at ha
      subst ha
      exact hle
    · simp only [maxStep, hle, if_false, Option.some.injEq] at h
      subst h
      refine ⟨le_of_not_le hle, ?_⟩
      intro a ha
      rw [Option.some.injEq] at ha
      subst ha
      exact le_refl _

theorem foldl_maxStep_mem (m : List (String × WindowState)) :
    ∀ (acc : Option (String × WindowState)) (q : String × WindowState),
      m.foldl maxStep acc = some q → acc = some q ∨ q ∈ m := by
  induction m with
  | nil => intro acc q h; exact Or.inl h
  | cons p m ih =>
    intro acc q h
    simp only [List.foldl_cons] at h
    rcases ih (maxStep acc p) q h with h1 | h2
    · cases acc with
      | none =>
        simp only [maxStep, Option.some.injEq] at h1
        subst h1
        exact Or.inr (List.mem_cons_self _ _)
      | some a =>
        by_cases hle : a.2.last_focused_at ≤ p.2.last_focused_at
        · simp only [maxStep, hle, if_true, Option.some.injEq] at h1
          subst h1
          exact Or.inr (List.mem_cons_self _ _)
        · simp only [maxStep, hle, if_false] at h1
          exact Or.inl h1
    · exact Or.inr (List.mem_cons_of_mem _ h2)

theorem foldl_maxStep_ge (m : List (String × WindowState)) :
    ∀ (acc : Option (String × WindowState)) (q : String × WindowState),
      m.foldl maxStep acc = some q →
        (∀ p2 ∈ m, p2.2.last_focused_at ≤ q.2.last_focused_at) ∧
          ∀ a, acc = some a → a.2.last_focused_at ≤ q.2.last_focused_at := by
  induction m with
  | nil =>
    intro acc q h
    refine ⟨by simp, ?_⟩
    intro a ha
    rw [ha] at h
    simp only [List.foldl_nil, Option.some.injEq] at h
    rw [h]
  | cons p m ih =>
    intro acc q h
    simp only [List.foldl_cons] at h
    obtain ⟨x, hx⟩ := maxStep_eq_some acc p
    obtain ⟨hmem, hacc⟩ := ih (maxStep acc p) q h
    have hxq : x.2.last_focused_at ≤ q.2.last_focused_at := hacc x hx
    have hstep := maxStep_ge acc p x hx
    refine ⟨?_, ?_⟩
    · intro p2 hp2
      rcases List.mem_cons.mp hp2 with h1 | h2
      · rw [h1]
        exact le_trans hstep.1 hxq
      · exact hmem p2 h2
    · intro a ha
      exact le_trans (hstep.2 a ha) hxq

theorem maxByLfa_mem (m : List (String × WindowState)) (q : String × WindowState)
    (h : maxByLfa m = some q) : q ∈ m := by
  rcases foldl_maxStep_mem m none q h with h1 | h2
  · simp at h1
  · exact h2

theorem maxByLfa_ge (m : List (String × WindowState)) (q : String × WindowState)
    (h : maxByLfa m = some q) :
    ∀ p ∈ m, p.2.last_focused_at ≤ q.2.last_focused_at :=
  (foldl_maxStep_ge m none q h).1

theorem foldl_maxStep_isSome (m : List (String × WindowState)) :
    ∀ acc, acc.isSome = true → (m.foldl maxStep acc).isSome = true := by
  induction m with
  | nil => intro acc h; exact h
  | cons p m ih =>
    intro acc h
    simp only [List.foldl_cons]
    obtain ⟨x, hx⟩ := maxStep_eq_some acc p
    exact ih _ (by rw [hx]; rfl)

theorem maxByLfa_isSome (m : List (String × WindowState)) (h : m ≠ []) :
    (maxByLfa m).isSome = true := by
  cases m with
  | nil => exact absurd rfl h
  | cons p m =>
    simp only [maxByLfa, List.foldl_cons]
    exact foldl_maxStep_isSome m (maxStep none p) (by simp [maxStep])

/-- All stored `z_order` values are bounded by `c`. -/
def allLe (m : List (String × WindowState)) (c : Nat) : Prop :=
  ∀ p ∈ m, p.2.z_order ≤ c

theorem allLe_mono (m : List (String × WindowState)) (c c2 : Nat) (h : allLe m c)
    (hc : c ≤ c2) : allLe m c2 :=
  fun p hp => le_trans (h p hp) hc

theorem allLe_setW (m : List (String × WindowState)) (k : String)
    (f : WindowState → WindowState) (c : Nat) (hf : ∀ w, (f w).z_order = w.z_order)
    (h : allLe m c) : allLe (setW m k f) c := by
  intro p hp
  obtain ⟨p0, hp0, hpe⟩ := List.mem_map.mp hp
  rw [← hpe]
  by_cases hb : p0.1 = k <;> simp [beq_iff_eq, hb, hf] <;> exact h p0 hp0

theorem allLe_setW_bump (m : List (String × WindowState)) (k : String)
    (f : WindowState → WindowState) (c : Nat) (hz : ∀ w, (f w).z_order = c + 1)
    (h : allLe m c) : allLe (setW m k f) (c + 1) := by
  intro p hp
  obtain ⟨p0, hp0, hpe⟩ := List.mem_map.mp hp
  rw [← hpe]
  by_cases hb : p0.1 = k
  · simp [beq_iff_eq, hb, hz]
  · simp [beq_iff_eq, hb]
    exact le_trans (h p0 hp0) (Nat.le_succ c)

theorem allLe_append (m : List (String × WindowState)) (k : String) (v : WindowState)
    (c : Nat) (hv : v.z_order = c + 1) (h : allLe m c) : allLe (m ++ [(k, v)]) (c + 1) := by
  intro p hp
  rcases List.mem_append.mp hp with h1 | h2
  · exact le_trans (h p h1) (Nat.le_succ c)
  · simp at h2
    rw [h2, hv]

theorem not_mem_zvals_of_allLe (m : List (String × WindowState)) (c : Nat)
    (h : allLe m c) : (c + 1) ∉ zvals m := by
  intro hmem
  obtain ⟨p, hp, hpz⟩ := List.mem_map.mp hmem
  have := h p hp
  omega

theorem zvals_setW_nodup (k : String) (f : WindowState → WindowState) (c : Nat)
    (hz : ∀ w, (f w).z_order = c + 1) :
    ∀ m : List (String × WindowState),
      (keysW m).Nodup → allLe m c → (zvals m).Nodup → (zvals (setW m k f)).Nodup := by
  intro m
  induction m with
  | nil => intro _ _ _; simp [setW, zvals]
  | cons p m ih =>
    intro hkeys hle hnd
    simp only [keysW, List.map_cons, List.nodup_cons] at hkeys
    simp only [zvals, List.map_cons, List.nodup_cons] at hnd
    have hlem : allLe m c := fun q hq => hle q (List.mem_cons_of_mem _ hq)
    have hlep : p.2.z_order ≤ c := hle p (List.mem_cons_self _ _)
    by_cases hb : p.1 = k
    · have hnotin : k ∉ keysW m := by
        rw [← hb]
        simpa [keysW] using hkeys.1
      have hnc : containsW m k = false := by
        cases hcon : containsW m k with
        | false => rfl
        | true => exact absurd ((contains_iff_mem_keys m k).mp hcon) hnotin
      have hset : setW m k f = m := setW_not_contains m k f hnc
      simp only [setW, List.map_cons] at *
      rw [hset]
      simp only [zvals, List.map_cons, List.nodup_cons, beq_iff_eq, hb, if_true]
      refine ⟨?_, hnd.2⟩
      rw [hz p.2]
      exact fun hc => not_mem_zvals_of_allLe m c hlem (by simpa [zvals] using hc)
    · have htail := ih (by simpa [keysW] using hkeys.2) hlem hnd.2
      simp only [setW, List.map_cons, beq_iff_eq, hb, if_false, zvals, List.nodup_cons]
      refine ⟨?_, by simpa [setW, zvals] using htail⟩
      intro hc
      have hc2 : p.2.z_order ∈ zvals (setW m k f) := by simpa [setW, zvals] using hc
      rcases zvals_setW_mem m k f (c + 1) hz p.2.z_order hc2 with h1 | h2
      · exact hnd.1 (by simpa [zvals] using h1)
      · omega

theorem lookup_setW_z (m : List (String × WindowState)) (k : String)
    (f : WindowState → WindowState) (hf : ∀ w, (f w).z_order = w.z_order)
    (l : String) (w : WindowState) (h : lookupW (setW m k f) l = some w) :
    ∃ w0, lookupW m l = some w0 ∧ w0.z_order = w.z_order := by
  by_cases hl : l = k
  · subst hl
    rw [lookup_setW_self] at h
    obtain ⟨a, ha, hfa⟩ := Option.map_eq_some'.mp h
    refine ⟨a, ha, ?_⟩
    rw [← hfa]
    exact (hf a).symm
  · rw [lookup_setW_ne m k l f hl] at h
    exact ⟨w, h, rfl⟩

/-- The inductive invariant behind claim C5: all live `z_order` values are
bounded by the counter and pairwise distinct, keys are unique, and the
most recently raised label (when live) sits exactly at the counter. -/
def ZInv (r : WindowRegistry) (lr : Option String) : Prop :=
  allLe r.windows r.z_order_counter ∧
  (zvals r.windows).Nodup ∧
  (keysW r.windows).Nodup ∧
  ∀ l w, lr = some l → lookupW r.windows l = some w → w.z_order = r.z_order_counter

theorem unfocusPrev_keys (r : WindowRegistry) : keysW (unfocusPrev r) = keysW r.windows := by
  cases hr : r.focused_window <;> simp [unfocusPrev, hr, keysW_setW]

theorem unfocusPrev_zvals (r : WindowRegistry) : zvals (unfocusPrev r) = zvals r.windows := by
  cases hr : r.focused_window with
  | none => simp [unfocusPrev, hr]
  | some prev =>
    simp only [unfocusPrev, hr]
    exact zvals_setW r.windows prev _ fun w => rfl

theorem unfocusPrev_allLe (r : WindowRegistry) (c : Nat) (h : allLe r.windows c) :
    allLe (unfocusPrev r) c := by
  cases hr : r.focused_window with
  | none => simpa [unfocusPrev, hr] using h
  | some prev =>
    simp only [unfocusPrev, hr]
    exact allLe_setW r.windows prev _ c (fun w => rfl) h


theorem unfocusPrev_lookup_z (r : WindowRegistry) (l : String) (w : WindowState)
    (h : lookupW (unfocusPrev r) l = some w) :
    ∃ w0, lookupW r.windows l = some w0 ∧ w0.z_order = w.z_order := by
  cases hr : r.focused_window with
  | none =>
    simp only [unfocusPrev, hr] at h
    exact ⟨w, h, rfl⟩
  | some prev =>
    simp only [unfocusPrev, hr] at h
    exact lookup_setW_z r.windows prev (fun w => { w with is_focused := false })
      (fun w => rfl) l w h

theorem ZInv_add (r : WindowRegistry) (lr : Option String) (label : String)
    (config : WindowConfig) (now : Nat) (h : ZInv r lr) :
    ZInv (r.add_window label config now) (some label) := by
  obtain ⟨ha, hb, hc, _⟩ := h
  have hale : allLe (unfocusPrev r) r.z_order_counter := unfocusPrev_allLe r _ ha
  have hbz : (zvals (unfocusPrev r)).Nodup := by rw [unfocusPrev_zvals]; exact hb
  have hck : (keysW (unfocusPrev r)).Nodup := by rw [unfocusPrev_keys]; exact hc
  cases hcon : containsW (unfocusPrev r) label with
  | true =>
    have heq : r.add_window label config now =
        { windows := setW (unfocusPrev r) label fun _ =>
            { label := label, config := config, z_order := r.z_order_counter + 1,
              is_focused := true, is_minimized := false, is_maximized := false,
              monitor_id := none, created_at := now, last_focused_at := now },
          z_order_counter := r.z_order_counter + 1,
          focused_window := some label } := by
      simp [WindowRegistry.add_window, insertW, hcon]
    rw [heq]
    have h1 : allLe (setW (unfocusPrev r) label fun _ =>
        ({ label := label, config := config, z_order := r.z_order_counter + 1,
           is_focused := true, is_minimized := false, is_maximized := false,
           monitor_id := none, created_at := now,
           last_focused_at := now } : WindowState)) (r.z_order_counter + 1) :=
      allLe_setW_bump _ _ _ _ (fun w => rfl) hale
    have h2 := zvals_setW_nodup label (fun _ =>
        ({ label := label, config := config, z_order := r.z_order_counter + 1,
           is_focused := true, is_minimized := false, is_maximized := false,
           monitor_id := none, created_at := now,
           last_focused_at := now } : WindowState)) r.z_order_counter (fun w => rfl)
      (unfocusPrev r) hck hale hbz
    have h3 : (keysW (setW (unfocusPrev r) label fun _ =>
        ({ label := label, config := config, z_order := r.z_order_counter + 1,
           is_focused := true, is_minimized := false, is_maximized := false,
           monitor_id := none, created_at := now,
           last_focused_at := now } : WindowState))).Nodup := by
      rw [keysW_setW]; exact hck
    have h4 : ∀ l w, some label = some l →
        lookupW (setW (unfocusPrev r) label fun _ =>
          ({ label := label, config := config, z_order := r.z_order_counter + 1,
             is_focused := true, is_minimized := false, is_maximized := false,
             monitor_id := none, created_at := now,
             last_focused_at := now } : WindowState)) l = some w →
        w.z_order = r.z_order_counter + 1 := by
      intro l w hl hw
      rw [Option.some.injEq] at hl
      rw [← hl] at hw
      rw [lookup_setW_self] at hw
      obtain ⟨a, _, hfa⟩ := Option.map_eq_some'.mp hw
      rw [← hfa]
    exact ⟨h1, h2, h3, h4⟩
  | false =>
    have heq : r.add_window label config now =
        { windows := unfocusPrev r ++ [(label,
            { label := label, config := config, z_order := r.z_order_counter + 1,
              is_focused := true, is_minimized := false, is_maximized := false,
              monitor_id := none, created_at := now, last_focused_at := now })],
          z_order_counter := r.z_order_counter + 1,
          focused_window := some label } := by
      simp [WindowRegistry.add_window, insertW, hcon]
    rw [heq]
    have hnotin : label ∉ keysW (unfocusPrev r) := by
      intro hmem
      have hmem2 := (contains_iff_mem_keys _ _).mpr hmem
      rw [hcon] at hmem2
      exact absurd hmem2 (by decide)
    have h1 : allLe (unfocusPrev r ++ [(label,
        ({ label := label, config := config, z_order := r.z_order_counter + 1,
           is_focused := true, is_minimized := false, is_maximized := false,
           monitor_id := none, created_at := now,
           last_focused_at := now } : WindowState))]) (r.z_order_counter + 1) :=
      allLe_append _ _ _ _ rfl hale
    have h2 : (zvals (unfocusPrev r ++ [(label,
        ({ label := label, config := config, z_order := r.z_order_counter + 1,
           is_focused := true, is_minimized := false, is_maximized := false,
           monitor_id := none, created_at := now,
           last_focused_at := now } : WindowState))])).Nodup := by
      simp only [zvals, List.map_append, List.map_cons, List.map_nil]
      rw [List.nodup_append]
      refine ⟨by simpa [zvals] using hbz, List.nodup_singleton _, ?_⟩
      intro z hz1 hz2
      simp at hz2
      subst hz2
      exact not_mem_zvals_of_allLe _ _ hale (by simpa [zvals] using hz1)
    have h3 : (keysW (unfocusPrev r ++ [(label,
        ({ label := label, config := config, z_order := r.z_order_counter + 1,
           is_focused := true, is_minimized := false, is_maximized := false,
           monitor_id := none, created_at := now,
           last_focused_at := now } : WindowState))])).Nodup := by
      simp only [keysW, List.map_append, List.map_cons, List.map_nil]
      rw [List.nodup_append]
      refine ⟨by simpa [keysW] using hck, List.nodup_singleton _, ?_⟩
      intro z hz1 hz2
      simp at hz2
      subst hz2
      exact hnotin (by simpa [keysW] using hz1)
    have h4 : ∀ l w, some label = some l →
        lookupW (unfocusPrev r ++ [(label,
          ({ label := label, config := config, z_order := r.z_order_counter + 1,
             is_focused := true, is_minimized := false, is_maximized := false,
             monitor_id := none, created_at := now,
             last_focused_at := now } : WindowState))]) l = some w →
        w.z_order = r.z_order_counter + 1 := by
      intro l w hl hw
      rw [Option.some.injEq] at hl
      rw [← hl] at hw
      rw [lookup_append_self _ _ _ hcon, Option.some.injEq] at hw
      rw [← hw]
    exact ⟨h1, h2, h3, h4⟩

theorem ZInv_focus (r : WindowRegistry) (lr : Option String) (label : String) (now : Nat)
    (h : ZInv r lr) : ZInv (r.focus_window label now) (some label) := by
  obtain ⟨ha, hb, hc, hd⟩ := h
  have hale : allLe (unfocusPrev r) r.z_order_counter := unfocusPrev_allLe r _ ha
  have hbz : (zvals (unfocusPrev r)).Nodup := by rw [unfocusPrev_zvals]; exact hb
  have hck : (keysW (unfocusPrev r)).Nodup := by rw [unfocusPrev_keys]; exact hc
  cases hcon : containsW (unfocusPrev r) label with
  | true =>
    have heq : r.focus_window label now =
        { windows := setW (unfocusPrev r) label fun w =>
            { w with is_focused := true, last_focused_at := now,
                     z_order := r.z_order_counter + 1 },
          z_order_counter := r.z_order_counter + 1,
          focused_window := some label } := by
      simp [WindowRegistry.focus_window, hcon]
    rw [heq]
    have h1 : allLe (setW (unfocusPrev r) label fun w =>
        { w with is_focused := true, last_focused_at := now,
                 z_order := r.z_order_counter + 1 }) (r.z_order_counter + 1) :=
      allLe_setW_bump _ _ _ _ (fun w => rfl) hale
    have h2 := zvals_setW_nodup label (fun w =>
        { w with is_focused := true, last_focused_at := now,
                 z_order := r.z_order_counter + 1 }) r.z_order_counter (fun w => rfl)
      (unfocusPrev r) hck hale hbz
    have h3 : (keysW (setW (unfocusPrev r) label fun w =>
        { w with is_focused := true, last_focused_at := now,
                 z_order := r.z_order_counter + 1 })).Nodup := by
      rw [keysW_setW]; exact hck
    have h4 : ∀ l w, some label = some l →
        lookupW (setW (unfocusPrev r) label fun w =>
          { w with is_focused := true, last_focused_at := now,
                   z_order := r.z_order_counter + 1 }) l = some w →
        w.z_order = r.z_order_counter + 1 := by
      intro l w hl hw
      rw [Option.some.injEq] at hl
      rw [← hl] at hw
      rw [lookup_setW_self] at hw
      obtain ⟨a, _, hfa⟩ := Option.map_eq_some'.mp hw
      rw [← hfa]
    exact ⟨h1, h2, h3, h4⟩
  | false =>
    have heq : r.focus_window label now =
        { windows := unfocusPrev r, z_order_counter := r.z_order_counter,
          focused_window := r.focused_window } := by
      simp [WindowRegistry.focus_window, hcon]
    rw [heq]
    have h4 : ∀ l w, some label = some l → lookupW (unfocusPrev r) l = some w →
        w.z_order = r.z_order_counter := by
      intro l w hl hw
      rw [Option.some.injEq] at hl
      rw [← hl] at hw
      have hs : (lookupW (unfocusPrev r) label).isSome = true := by rw [hw]; rfl
      rw [lookup_isSome, hcon] at hs
      exact absurd hs (by decide)
    exact ⟨hale, hbz, hck, h4⟩

theorem ZInv_remove (r : WindowRegistry) (lr : Option String) (label : String)
    (h : ZInv r lr) : ZInv (r.remove_window label) lr := by
  obtain ⟨ha, hb, hc, hd⟩ := h
  have hsub : List.Sublist (r.windows.filter fun p => !(p.1 == label)) r.windows :=
    List.filter_sublist r.windows
  have hale : allLe (r.windows.filter fun p => !(p.1 == label)) r.z_order_counter :=
    fun p hp => ha p (hsub.subset hp)
  have hbz : (zvals (r.windows.filter fun p => !(p.1 == label))).Nodup :=
    List.Nodup.sublist (hsub.map _) hb
  have hck : (keysW (r.windows.filter fun p => !(p.1 == label))).Nodup :=
    List.Nodup.sublist (hsub.map _) hc
  have hdrest : ∀ l w, lr = some l →
      lookupW (r.windows.filter fun p => !(p.1 == label)) l = some w →
      w.z_order = r.z_order_counter := by
    intro l w hl hw
    by_cases hll : l = label
    · rw [hll, lookup_filter_self] at hw
      exact absurd hw (by simp)
    · rw [lookup_filter_ne _ _ _ hll] at hw
      exact hd l w hl hw
  by_cases hfoc : r.focused_window = some label
  · cases hmax : maxByLfa (r.windows.filter fun p => !(p.1 == label)) with
    | none =>
      have heq : r.remove_window label =
          { windows := r.windows.filter fun p => !(p.1 == label),
            z_order_counter := r.z_order_counter, focused_window := none } := by
        simp [WindowRegistry.remove_window, hfoc, hmax]
      rw [heq]
      exact ⟨hale, hbz, hck, hdrest⟩
    | some q =>
      have heq : r.remove_window label =
          { windows := setW (r.windows.filter fun p => !(p.1 == label)) q.1
              fun w => { w with is_focused := true },
            z_order_counter := r.z_order_counter,
            focused_window := some q.2.label } := by
        simp [WindowRegistry.remove_window, hfoc, hmax]
      rw [heq]
      have h1 : allLe (setW (r.windows.filter fun p => !(p.1 == label)) q.1
          fun w => { w with is_focused := true }) r.z_order_counter :=
        allLe_setW _ _ _ _ (fun w => rfl) hale
      have h2 : (zvals (setW (r.windows.filter fun p => !(p.1 == label)) q.1
          fun w => { w with is_focused := true })).Nodup := by
        rw [zvals_setW (r.windows.filter fun p => !(p.1 == label)) q.1
          (fun w => { w with is_focused := true }) fun w => rfl]
        exact hbz
      have h3 : (keysW (setW (r.windows.filter fun p => !(p.1 == label)) q.1
          fun w => { w with is_focused := true })).Nodup := by
        rw [keysW_setW]; exact hck
      have h4 : ∀ l w, lr = some l →
          lookupW (setW (r.windows.filter fun p => !(p.1 == label)) q.1
            fun w => { w with is_focused := true }) l = some w →
          w.z_order = r.z_order_counter := by
        intro l w hl hw
        obtain ⟨w0, hw0, hz⟩ := lookup_setW_z (r.windows.filter fun p => !(p.1 == label))
          q.1 (fun w => { w with is_focused := true }) (fun w => rfl) l w hw
        rw [← hz]
        exact hdrest l w0 hl hw0
      exact ⟨h1, h2, h3, h4⟩
  · have heq : r.remove_window label =
        { windows := r.windows.filter fun p => !(p.1 == label),
          z_order_counter := r.z_order_counter,
          focused_window := r.focused_window } := by
      simp [WindowRegistry.remove_window, hfoc]
    rw [heq]
    exact ⟨hale, hbz, hck, hdrest⟩

theorem ZInv_update (r : WindowRegistry) (lr : Option String) (label : String)
    (mi ma : Option Bool) (mo : Option String) (h : ZInv r lr) :
    ZInv (r.update_window_state label mi ma mo) lr := by
  obtain ⟨ha, hb, hc, hd⟩ := h
  have hfz : ∀ w : WindowState, (updateF mi ma mo w).z_order = w.z_order := by
    intro w
    cases mi <;> cases ma <;> cases mo <;> rfl
  have heq : r.update_window_state label mi ma mo =
      { windows := setW r.windows label (updateF mi ma mo),
        z_order_counter := r.z_order_counter,
        focused_window := r.focused_window } := rfl
  rw [heq]
  have h1 : allLe (setW r.windows label (updateF mi ma mo)) r.z_order_counter :=
    allLe_setW r.windows label (updateF mi ma mo) r.z_order_counter hfz ha
  have h2 : (zvals (setW r.windows label (updateF mi ma mo))).Nodup := by
    rw [zvals_setW r.windows label (updateF mi ma mo) hfz]
    exact hb
  have h3 : (keysW (setW r.windows label (updateF mi ma mo))).Nodup := by
    rw [keysW_setW]
    exact hc
  have h4 : ∀ l w, lr = some l →
      lookupW (setW r.windows label (updateF mi ma mo)) l = some w →
      w.z_order = r.z_order_counter := by
    intro l w hl hw
    obtain ⟨w0, hw0, hz⟩ := lookup_setW_z r.windows label (updateF mi ma mo) hfz l w hw
    rw [← hz]
    exact hd l w0 hl hw0
  exact ⟨h1, h2, h3, h4⟩

theorem ZInv_new : ZInv WindowRegistry.new none := by
  refine ⟨?_, ?_, ?_, ?_⟩
  · intro p hp; simp [WindowRegistry.new] at hp
  · simp [WindowRegistry.new, zvals]
  · simp [WindowRegistry.new, keysW]
  · intro l w hl
    simp at hl

theorem ZInv_applyOp (r : WindowRegistry) (lr : Option String) (op : RegOp)
    (h : ZInv r lr) : ZInv (applyOp r op) (opTarget lr op) := by
  cases op with
  | add l c t => exact ZInv_add r lr l c t h
  | remove l => exact ZInv_remove r lr l h
  | focus l t => exact ZInv_focus r lr l t h
  | update l mi ma mo => exact ZInv_update r lr l mi ma mo h

theorem ZInv_applyOps (ops : List RegOp) :
    ∀ (r : WindowRegistry) (lr : Option String), ZInv r lr →
      ZInv (applyOps r ops) (lastRaised ops lr) := by
  induction ops with
  | nil => intro r lr h; exact h
  | cons op rest ih =>
    intro r lr h
    exact ih (applyOp r op) (opTarget lr op) (ZInv_applyOp r lr op h)

/-- Claim C1 (code_bug evaluation): after adding window "a" and then calling
`focus_window` on the absent label "b", the registry still holds one record
but no record has `is_focused == true`, and `focused_window` still points
at "a" whose flag is now false — the exactly-one-focused invariant fails on
this reachable state. -/
theorem c1_unknown_focus_breaks_invariant :
    regC1.windows.length = 1 ∧ countFocused regC1.windows = 0 ∧
    regC1.focused_window = some "a" ∧
    (lookupW regC1.windows "a").map (fun w => w.is_focused) = some false := by
  decide

/-- Claim C2 (code_bug evaluation): calling `focus_window` with the absent
label "b" on a registry whose only record "a" is focused clears the
`is_focused` flag of "a" (the counter and the focused-window pointer are
untouched), so the registry is not left unchanged. -/
theorem c2_unknown_focus_mutates_registry :
    (lookupW regC2.windows "a").map (fun w => w.is_focused) = some true ∧
    (lookupW regC2x.windows "a").map (fun w => w.is_focused) = some false ∧
    regC2x.focused_window = regC2.focused_window ∧
    regC2x.z_order_counter = regC2.z_order_counter := by
  decide

/-- Claim C3 counterexample: focusing "a" twice (same timestamp) does not
leave the registry in the state reached after focusing once — the second
call bumps the z-order counter again, so the window's `z_order` is 3 after
two calls but 2 after one. -/
theorem c3_focus_twice_changes_z_order :
    (lookupW regC3b.windows "a").map (fun w => w.z_order) = some 2 ∧
    (lookupW regC3c.windows "a").map (fun w => w.z_order) = some 3 ∧
    regC3c ≠ regC3b := by
  decide

/-- Claim C4 counterexample: removing the focused window "c" from a registry
whose remaining records "a" (z_order 3) and "b" (z_order 2) are tied on
`last_focused_at` transfers focus to "b", the later map entry, not to the
record with the highest `z_order` as the claim states. -/
theorem c4_tie_not_broken_by_z_order :
    (regC4x.remove_window "c").focused_window = some "b" ∧
    (lookupW (regC4x.remove_window "c").windows "a").map (fun w => w.z_order) = some 3 ∧
    (lookupW (regC4x.remove_window "c").windows "b").map (fun w => w.z_order) = some 2 ∧
    (lookupW (regC4x.remove_window "c").windows "a").map (fun w => w.last_focused_at) =
      some 5 ∧
    (lookupW (regC4x.remove_window "c").windows "b").map (fun w => w.last_focused_at) =
      some 5 := by
  decide

theorem unfocusPrev_contains (r : WindowRegistry) (k : String) :
    containsW (unfocusPrev r) k = containsW r.windows k := by
  cases hr : r.focused_window with
  | none => simp [unfocusPrev, hr]
  | some prev =>
    simp only [unfocusPrev, hr]
    exact contains_setW r.windows prev k _

theorem focus_window_found (r : WindowRegistry) (l : String) (t : Nat)
    (h : containsW r.windows l = true) :
    r.focus_window l t =
      { windows := setW (unfocusPrev r) l fun w =>
          { w with is_focused := true, last_focused_at := t,
                   z_order := r.z_order_counter + 1 },
        z_order_counter := r.z_order_counter + 1,
        focused_window := some l } := by
  have hconU : containsW (unfocusPrev r) l = true := by
    rw [unfocusPrev_contains]; exact h
  simp [WindowRegistry.focus_window, hconU]

theorem unfocusPrev_length (r : WindowRegistry) :
    (unfocusPrev r).length = r.windows.length := by
  cases hr : r.focused_window with
  | none => simp [unfocusPrev, hr]
  | some prev => simp [unfocusPrev, hr, length_setW]

/-- Claim C8 counterexample: with three snapshots of which the second fails
to create, the restoration loop returns exactly the two successful labels,
and this return value is identical to the one produced when only the two
good snapshots are restored with no failure at all — the caller receives no
record of the failure at index 1, so the claimed failure reporting does not
exist. -/
theorem c8_failures_not_reported :
    restoreLoop createByTitle [snapW "one", snapW "bad", snapW "three"] =
      ["w_one", "w_three"] ∧
    restoreLoop createByTitle [snapW "one", snapW "three"] = ["w_one", "w_three"] := by
  decide

/-- Claim C8 (amended): a failure creating one window skips that snapshot
while all remaining snapshots are still attempted, and the returned
sequence is exactly the labels of the successful creations in their
original order; failures are silently discarded, not reported. -/
theorem c8_restore_skips_failures (create : WindowState → Except String String)
    (snaps : List WindowState) :
    restoreLoop create snaps = snaps.filterMap fun s => (create s).toOption := by
  induction snaps with
  | nil => rfl
  | cons s rest ih =>
    cases hcr : create s with
    | ok label => simp [restoreLoop, hcr, Except.toOption, ih]
    | error e => simp [restoreLoop, hcr, Except.toOption, ih]

/-- Claim C9: for the 1920 by 1080 reference rectangle, snapping Left gives
the left half rectangle 960 by 1080 at the origin, and snapping Center
gives the 70 percent inset 1344 by 756 centered at (288, 162); the
computation is a pure function, so identical inputs give identical
output. -/
theorem c9_snap_geometry :
    snap_rect 1920 1080 SnapPosition.Left = some ⟨0, 0, 960, 1080⟩ ∧
    snap_rect 1920 1080 SnapPosition.Center = some ⟨288, 162, 1344, 756⟩ := by
  constructor <;>
  · simp only [snap_rect, f64ToU32, f64ToI32, truncRat, Option.some.injEq,
      SnapRect.mk.injEq]
    norm_num
    constructor <;> decide

/-- Claim C10: `add_window` on a label that is already present does not fail
and does not create a second entry: it overwrites the existing record in
place with a freshly initialized one (fresh top z_order, focused, not
minimized, not maximized, no monitor), leaving the number of live records
unchanged. -/
theorem c10_add_existing_label (r : WindowRegistry) (l : String) (c : WindowConfig)
    (t : Nat) (h : containsW r.windows l = true) :
    (r.add_window l c t).windows.length = r.windows.length ∧
    lookupW (r.add_window l c t).windows l = some
      { label := l, config := c, z_order := r.z_order_counter + 1, is_focused := true,
        is_minimized := false, is_maximized := false, monitor_id := none,
        created_at := t, last_focused_at := t } := by
  have hconU : containsW (unfocusPrev r) l = true := by
    rw [unfocusPrev_contains]; exact h
  have heq : r.add_window l c t =
      { windows := setW (unfocusPrev r) l fun _ =>
          { label := l, config := c, z_order := r.z_order_counter + 1,
            is_focused := true, is_minimized := false, is_maximized := false,
            monitor_id := none, created_at := t, last_focused_at := t },
        z_order_counter := r.z_order_counter + 1,
        focused_window := some l } := by
    simp [WindowRegistry.add_window, insertW, hconU]
  constructor
  · have hw : (r.add_window l c t).windows = setW (unfocusPrev r) l fun _ =>
        ({ label := l, config := c, z_order := r.z_order_counter + 1,
           is_focused := true, is_minimized := false, is_maximized := false,
           monitor_id := none, created_at := t,
           last_focused_at := t } : WindowState) := by rw [heq]
    rw [hw, length_setW, unfocusPrev_length]
  · have hw : (r.add_window l c t).windows = setW (unfocusPrev r) l fun _ =>
        ({ label := l, config := c, z_order := r.z_order_counter + 1,
           is_focused := true, is_minimized := false, is_maximized := false,
           monitor_id := none, created_at := t,
           last_focused_at := t } : WindowState) := by rw [heq]
    rw [hw, lookup_setW_self]
    have hsome : (lookupW (unfocusPrev r) l).isSome = true := by
      rw [lookup_isSome]; exact hconU
    obtain ⟨w0, hw0⟩ := Option.isSome_iff_exists.mp hsome
    rw [hw0]
    rfl

/-- Claim C10 witness: adding "a" again on the one-window registry that
already holds "a" keeps the record count at one and overwrites the record
with the freshly initialized state. -/
theorem c10_add_existing_label_witness :
    (regC2.add_window "a" cfg0 7).windows.length = regC2.windows.length ∧
    lookupW (regC2.add_window "a" cfg0 7).windows "a" = some
      { label := "a", config := cfg0, z_order := regC2.z_order_counter + 1,
        is_focused := true, is_minimized := false, is_maximized := false,
        monitor_id := none, created_at := 7, last_focused_at := 7 } :=
  c10_add_existing_label regC2 "a" cfg0 7 (by decide)

/-- Claim C3 (amended): calling `focus_window` twice in succession on an
existing label keeps the window focused and leaves every other record
exactly as after the first call, but the second call is not a no-op on
stacking: it increments the z-order counter again and re-stamps the
window's `z_order` (and `last_focused_at`), so the stored `z_order` value
differs from the value after a single call. -/
theorem c3_focus_twice_characterization (r : WindowRegistry) (l : String) (t1 t2 : Nat)
    (h : containsW r.windows l = true) :
    ((r.focus_window l t1).focus_window l t2).focused_window = some l ∧
    ((r.focus_window l t1).focus_window l t2).z_order_counter =
      (r.focus_window l t1).z_order_counter + 1 ∧
    (∀ k, k ≠ l → lookupW ((r.focus_window l t1).focus_window l t2).windows k =
      lookupW (r.focus_window l t1).windows k) ∧
    lookupW ((r.focus_window l t1).focus_window l t2).windows l =
      (lookupW (r.focus_window l t1).windows l).map fun w =>
        { w with is_focused := true, last_focused_at := t2,
                 z_order := (r.focus_window l t1).z_order_counter + 1 } := by
  have h1 := focus_window_found r l t1 h
  have hr1w : (r.focus_window l t1).windows = setW (unfocusPrev r) l fun w =>
      { w with is_focused := true, last_focused_at := t1,
               z_order := r.z_order_counter + 1 } := by rw [h1]
  have hr1f : (r.focus_window l t1).focused_window = some l := by rw [h1]
  have hcon1 : containsW (r.focus_window l t1).windows l = true := by
    rw [hr1w, contains_setW, unfocusPrev_contains]
    exact h
  have h2 := focus_window_found (r.focus_window l t1) l t2 hcon1
  have hu1 : unfocusPrev (r.focus_window l t1) =
      setW (r.focus_window l t1).windows l fun w => { w with is_focused := false } := by
    simp [unfocusPrev, hr1f]
  have h2w : ((r.focus_window l t1).focus_window l t2).windows =
      setW (unfocusPrev (r.focus_window l t1)) l fun w =>
        { w with is_focused := true, last_focused_at := t2,
                 z_order := (r.focus_window l t1).z_order_counter + 1 } := by rw [h2]
  refine ⟨by rw [h2], by rw [h2], ?_, ?_⟩
  · intro k hk
    rw [h2w, hu1]
    rw [lookup_setW_ne _ _ _ _ hk, lookup_setW_ne _ _ _ _ hk]
  · rw [h2w, hu1]
    rw [lookup_setW_self, lookup_setW_self, Option.map_map]
    congr 1

/-- Claim C3 witness: on the concrete one-window registry, after two
focus calls the window is focused, the counter advanced once more, and the
record equals the once-focused record re-stamped with a fresh top
z_order. -/
theorem c3_focus_twice_characterization_witness :
    regC3c.focused_window = some "a" ∧
    regC3c.z_order_counter = regC3b.z_order_counter + 1 ∧
    lookupW regC3c.windows "a" =
      (lookupW regC3b.windows "a").map fun w =>
        { w with is_focused := true, last_focused_at := 1,
                 z_order := regC3b.z_order_counter + 1 } := by
  have hth := c3_focus_twice_characterization regC3a "a" 1 1 (by decide)
  exact ⟨hth.1, hth.2.1, hth.2.2.2⟩

/-- Claim C4 (amended): when `remove_window` removes the currently focused
label, focus transfers to an entry with the maximum `last_focused_at` among
the remaining records — namely the last maximal entry in map iteration
order, with no z-order tie-break — and that record's flag is set; if no
records remain, the focused window becomes none. -/
theorem c4_remove_focus_transfer (r : WindowRegistry) (l : String)
    (h1 : r.focused_window = some l) (h2 : (keysW r.windows).Nodup) :
    (r.windows.filter (fun p => !(p.1 == l)) = [] →
      (r.remove_window l).focused_window = none) ∧
    ∀ q, maxByLfa (r.windows.filter fun p => !(p.1 == l)) = some q →
      (r.remove_window l).focused_window = some q.2.label ∧
      lookupW (r.remove_window l).windows q.1 = some { q.2 with is_focused := true } ∧
      ∀ p ∈ r.windows.filter (fun p => !(p.1 == l)),
        p.2.last_focused_at ≤ q.2.last_focused_at := by
  constructor
  · intro hrest
    have heq : r.remove_window l =
        { windows := r.windows.filter fun p => !(p.1 == l),
          z_order_counter := r.z_order_counter, focused_window := none } := by
      simp [WindowRegistry.remove_window, h1, hrest, maxByLfa]
    rw [heq]
  · intro q hq
    have heq : r.remove_window l =
        { windows := setW (r.windows.filter fun p => !(p.1 == l)) q.1
            (fun w => { w with is_focused := true }),
          z_order_counter := r.z_order_counter,
          focused_window := some q.2.label } := by
      simp [WindowRegistry.remove_window, h1, hq]
    have hmem : q ∈ r.windows.filter fun p => !(p.1 == l) := maxByLfa_mem _ q hq
    have hkr : (keysW (r.windows.filter fun p => !(p.1 == l))).Nodup :=
      List.Nodup.sublist ((List.filter_sublist r.windows).map _) h2
    have hlook : lookupW (r.windows.filter fun p => !(p.1 == l)) q.1 = some q.2 :=
      lookup_of_mem_nodup _ q hkr hmem
    refine ⟨by rw [heq], ?_, maxByLfa_ge _ q hq⟩
    have hw : (r.remove_window l).windows =
        setW (r.windows.filter fun p => !(p.1 == l)) q.1
          (fun w => { w with is_focused := true }) := by rw [heq]
    rw [hw, lookup_setW_self, hlook]
    rfl

/-- Claim C4 witness: in the registry with A focused (lastFocusedAt 5) and B
(lastFocusedAt 10), removing A transfers focus to B. -/
theorem c4_remove_focus_transfer_witness :
    (regC4w.remove_window "A").focused_window = some "B" := by
  have hth := c4_remove_focus_transfer regC4w "A" (by decide) (by decide)
  have hq := hth.2 ("B",
    { label := "B", config := cfg0, z_order := 2, is_focused := false,
      is_minimized := false, is_maximized := false, monitor_id := none,
      created_at := 10, last_focused_at := 10 }) (by decide)
  exact hq.1

/-- Claim C5: in every registry reachable from the empty registry by a
sequence of mutations, the stored `z_order` values are pairwise distinct,
and whenever the label most recently passed to `add_window` or
`focus_window` is still live, its record holds the maximum `z_order` among
all live records. -/
theorem c5_z_order_invariant (ops : List RegOp) :
    (zvals (applyOps WindowRegistry.new ops).windows).Nodup ∧
    ∀ (l : String) (w : WindowState) (p : String × WindowState),
      lastRaised ops none = some l →
      lookupW (applyOps WindowRegistry.new ops).windows l = some w →
      p ∈ (applyOps WindowRegistry.new ops).windows →
      p.2.z_order ≤ w.z_order := by
  obtain ⟨ha, hb, _, hd⟩ := ZInv_applyOps ops WindowRegistry.new none ZInv_new
  refine ⟨hb, ?_⟩
  intro l w p hl hw hp
  rw [hd l w hl hw]
  exact ha p hp

/-- Claim C5 witness: after adding "a", adding "b" and focusing "a", the
z-order values are distinct and the record of "a" (the most recently
focused label) dominates the entry of "b". -/
theorem c5_z_order_invariant_witness :
    (zvals (applyOps WindowRegistry.new opsC5).windows).Nodup ∧
    (("b",
      { label := "b", config := cfg0, z_order := 2, is_focused := false,
        is_minimized := false, is_maximized := false, monitor_id := none,
        created_at := 1, last_focused_at := 1 }) : String × WindowState).2.z_order ≤
      ({ label := "a", config := cfg0, z_order := 3, is_focused := true,
         is_minimized := false, is_maximized := false, monitor_id := none,
         created_at := 0, last_focused_at := 2 } : WindowState).z_order := by
  refine ⟨(c5_z_order_invariant opsC5).1, ?_⟩
  exact (c5_z_order_invariant opsC5).2 "a"
    { label := "a", config := cfg0, z_order := 3, is_focused := true,
      is_minimized := false, is_maximized := false, monitor_id := none,
      created_at := 0, last_focused_at := 2 }
    ("b",
      { label := "b", config := cfg0, z_order := 2, is_focused := false,
        is_minimized := false, is_maximized := false, monitor_id := none,
        created_at := 1, last_focused_at := 1 })
    rfl (by decide) (by decide)

theorem posOf_of_not_mem (c : String) (ws : List String) (h : c ∉ ws) :
    posOf c ws = none := by
  induction ws with
  | nil => rfl
  | cons x xs ih =>
    simp only [List.mem_cons, not_or] at h
    have hb : (x == c) = false := beq_eq_false_iff_ne.mpr fun he => h.1 he.symm
    simp [posOf, hb, ih h.2]

theorem posOf_of_nodup (c : String) (ws : List String) :
    ∀ i : Nat, ws.Nodup → ws[i]? = some c → posOf c ws = some i := by
  induction ws with
  | nil => intro i _ h; simp at h
  | cons x xs ih =>
    intro i hnd h
    simp only [List.nodup_cons] at hnd
    cases i with
    | zero =>
      simp only [List.getElem?_cons_zero, Option.some.injEq] at h
      simp [posOf, beq_iff_eq, h]
    | succ n =>
      simp only [List.getElem?_cons_succ] at h
      have hc : c ∈ xs := by
        obtain ⟨hlt, hget⟩ := List.getElem?_eq_some.mp h
        exact hget ▸ List.getElem_mem hlt
      have hxc : (x == c) = false := beq_eq_false_iff_ne.mpr fun he => hnd.1 (he ▸ hc)
      simp [posOf, hxc, ih n hnd.2 h]

/-- Claim C6: over the z-order-sorted label sequence, cycle-target selection
is circular — forward from index i picks index (i+1) mod length (so the
last element wraps to the first), backward from the first element wraps to
the last and otherwise picks index i-1; a label absent from the sequence
falls back to the first element; an empty sequence selects no target, so
the operation is a no-op. -/
theorem c6_cycle_target :
    (∀ (ws : List String) (c : String) (i : Nat), ws.Nodup → ws[i]? = some c →
      cycleTarget true (some c) ws = ws[(i + 1) % ws.length]?) ∧
    (∀ (ws : List String) (c : String), ws.Nodup → ws[0]? = some c →
      cycleTarget false (some c) ws = ws.getLast?) ∧
    (∀ (ws : List String) (c : String) (i : Nat), ws.Nodup → i ≠ 0 → ws[i]? = some c →
      cycleTarget false (some c) ws = ws[i - 1]?) ∧
    (∀ (ws : List String) (c : String) (d : Bool), ws ≠ [] → c ∉ ws →
      cycleTarget d (some c) ws = ws.head?) ∧
    ∀ (cur : Option String) (d : Bool), cycleTarget d cur [] = none := by
  refine ⟨?_, ?_, ?_, ?_, ?_⟩
  · intro ws c i hnd h
    have hne : ws.isEmpty = false := by
      cases ws with
      | nil => simp at h
      | cons a as => rfl
    simp [cycleTarget, hne, posOf_of_nodup c ws i hnd h]
  · intro ws c hnd h
    have hne : ws.isEmpty = false := by
      cases ws with
      | nil => simp at h
      | cons a as => rfl
    simp [cycleTarget, hne, posOf_of_nodup c ws 0 hnd h]
  · intro ws c i hnd hi h
    have hne : ws.isEmpty = false := by
      cases ws with
      | nil => simp at h
      | cons a as => rfl
    simp [cycleTarget, hne, posOf_of_nodup c ws i hnd h, hi]
  · intro ws c d hne hmem
    have hne2 : ws.isEmpty = false := by
      cases ws with
      | nil => exact absurd rfl hne
      | cons a as => rfl
    simp [cycleTarget, hne2, posOf_of_not_mem c ws hmem]
  · intro cur d
    rfl

/-- Claim C6 witness: on the sequence [A, B, C], forward from A picks B,
forward from the last element C wraps to A, and backward from the first
element A wraps to C. -/
theorem c6_cycle_target_witness :
    cycleTarget true (some "A") ["A", "B", "C"] = some "B" ∧
    cycleTarget true (some "C") ["A", "B", "C"] = some "A" ∧
    cycleTarget false (some "A") ["A", "B", "C"] = some "C" := by
  refine ⟨?_, ?_, ?_⟩
  · exact (c6_cycle_target.1 ["A", "B", "C"] "A" 0 (by decide) (by decide)).trans
      (by decide)
  · exact (c6_cycle_target.1 ["A", "B", "C"] "C" 2 (by decide) (by decide)).trans
      (by decide)
  · exact (c6_cycle_target.2.1 ["A", "B", "C"] "A" (by decide) (by decide)).trans
      (by decide)
